import Mathlib

/-!
Verification development for the two asset-conversion tools of this
repository:

* `tools/png_to_c.py` — the encoder: converts a color raster image into a
  C source file holding the RGB565-packed pixel bytes as a `0xNN` array
  plus an `lv_img_dsc_t` descriptor record;
* `tools/c_to_bin.py` — the decoder: extracts the hex byte literals out of
  such a C array declaration (regex-matched) and writes them to a raw
  binary file.

The definitions below are shallow embeddings of the Python code; names
follow the source wherever Lean permits.
-/

/-! ## Characters and small helpers -/

/-- Left brace character (written by code point to keep source text plain). -/
def lbrace : Char := Char.ofNat 123

/-- Right brace character. -/
def rbrace : Char := Char.ofNat 125

/-- Python regex `\s` over the ASCII texts these tools handle:
space, tab, newline, carriage return, vertical tab, form feed. -/
def pyWS (c : Char) : Bool :=
  c = ' ' || c = '\t' || c = '\n' || c = '\r' || c = Char.ofNat 11 || c = Char.ofNat 12

/-- Python regex `\w` over ASCII: letters, digits, underscore. -/
def pyWord (c : Char) : Bool :=
  c.isAlpha || c.isDigit || c = '_'

/-- Python `re` hex-digit class `[0-9a-fA-F]`. -/
def isHexDigitChar (c : Char) : Bool :=
  c.isDigit || ('a' ≤ c && c ≤ 'f') || ('A' ≤ c && c ≤ 'F')

/-- Numeric value of a hex digit, as `int(·, 16)` computes it per digit. -/
def hexDigitVal (c : Char) : Nat :=
  if c.isDigit then c.toNat - 48
  else if 'a' ≤ c && c ≤ 'f' then c.toNat - 87
  else c.toNat - 55

/-- Lowercase hex digit for a value `n < 16`, as Python `%x` formatting emits. -/
def toHexDigit (n : Nat) : Char :=
  if n < 10 then Char.ofNat (48 + n) else Char.ofNat (87 + n)

/-! ## Encoder (`png_to_c.py`, `convert_png_to_c`) -/

/-- RGB565 packing exactly as the encoder computes it:
`r5 = (r >> 3) & 0x1F`, `g6 = (g >> 2) & 0x3F`, `b5 = (b >> 3) & 0x1F`,
`rgb565 = (r5 << 11) | (g6 << 5) | b5`. -/
def rgb565 (r g b : Nat) : Nat :=
  let r5 := (r >>> 3) &&& 0x1F
  let g6 := (g >>> 2) &&& 0x3F
  let b5 := (b >>> 3) &&& 0x1F
  (r5 <<< 11) ||| (g6 <<< 5) ||| b5

/-- Characters of Python `f'0x{n:02x}'` for `n < 256`: `0x` + two
lowercase hex digits. -/
def hexTokChars (n : Nat) : List Char :=
  ['0', 'x', toHexDigit (n / 16 % 16), toHexDigit (n % 16)]

/-- Python `f'0x{n:02x}'` for `n < 256`, as a string token. -/
def hexTok (n : Nat) : String :=
  String.mk (hexTokChars n)

/-- Two data bytes of one packed pixel, low byte first, exactly as appended:
`rgb565 & 0xFF` then `(rgb565 >> 8) & 0xFF`. -/
def leBytes (v : Nat) : List Nat :=
  [v &&& 0xFF, (v >>> 8) &&& 0xFF]

/-- Two hex tokens of one packed pixel, low byte first. -/
def pixelTokens (v : Nat) : List String :=
  (leBytes v).map hexTok

/-- Model of a decoded color raster image: width, height, and the
`img.getpixel((x, y))` function returning 8-bit `(r, g, b)`. -/
structure Img where
  width : Nat
  height : Nat
  getpixel : Nat → Nat → Nat × Nat × Nat

/-- The `pixel_data` list of hex tokens built by the encoder's nested
`for y … for x` loop (row-major). -/
def pixel_data (img : Img) : List String :=
  (List.range img.height).flatMap fun y =>
    (List.range img.width).flatMap fun x =>
      match img.getpixel x y with
      | (r, g, b) => pixelTokens (rgb565 r g b)

/-- The packed pixel byte stream itself (values rather than tokens):
little-endian RGB565, row-major. -/
def packedStream (img : Img) : List Nat :=
  (List.range img.height).flatMap fun y =>
    (List.range img.width).flatMap fun x =>
      match img.getpixel x y with
      | (r, g, b) => leBytes (rgb565 r g b)

/-- The row of tokens written by one iteration of the output loop:
`pixel_data[i:i+16]`. -/
def rowAt (tokens : List String) (i : Nat) : List String :=
  (tokens.drop i).take 16

/-- One output line of the data section: two spaces, the comma-joined row,
then `',\n'` when `i + 16 < len(pixel_data)` and `'\n'` otherwise. -/
def lineAt (tokens : List String) (i : Nat) : String :=
  "  " ++ String.intercalate ", " (rowAt tokens i) ++
    (if i + 16 < tokens.length then ",\n" else "\n")

/-- The whole data section: the loop `for i in range(0, len(pixel_data), 16)`. -/
def dataText (tokens : List String) : String :=
  String.join ((List.range' 0 ((tokens.length + 15) / 16) 16).map (lineAt tokens))

/-- Fixed file header written before the array declaration. -/
def cFileHeader : String :=
  "#include \"lvgl.h\"\n\n#ifndef LV_ATTRIBUTE_MEM_ALIGN\n#define LV_ATTRIBUTE_MEM_ALIGN\n#endif\n\n"

/-- Array declaration line written by the encoder (note: no `static`). -/
def declLine (varName : String) : String :=
  "const LV_ATTRIBUTE_MEM_ALIGN uint8_t " ++ varName ++ "_map[] = \x7b\n"

/-- Descriptor block written after the array. -/
def dscText (varName : String) (w h dataSize : Nat) : String :=
  "const lv_img_dsc_t " ++ varName ++ " = \x7b\n  .header.always_zero = 0,\n  .header.w = " ++
    toString w ++ ",\n  .header.h = " ++ toString h ++ ",\n  .data_size = " ++
    toString dataSize ++ ",\n  .header.cf = LV_IMG_CF_TRUE_COLOR,\n  .data = " ++
    varName ++ "_map,\n\x7d;\n"

/-- The full C source text written by `convert_png_to_c`. -/
def convert_png_to_c (img : Img) (varName : String) : String :=
  cFileHeader ++ declLine varName ++ dataText (pixel_data img) ++ "\x7d;\n\n" ++
    dscText varName img.width img.height (pixel_data img).length

/-- Descriptor record model: the numeric fields written into `lv_img_dsc_t`. -/
structure LvImgDsc where
  w : Nat
  h : Nat
  data_size : Nat

/-- The descriptor the encoder writes: `.header.w = width`, `.header.h = height`,
`.data_size = len(pixel_data)`. -/
def imgDsc (img : Img) : LvImgDsc :=
  ⟨img.width, img.height, (pixel_data img).length⟩

/-! ## Decoder (`c_to_bin.py`)

The two declaration patterns of `parse_c_array` are

`static\s+const\s+(?:LV_ATTRIBUTE_MEM_ALIGN\s+)?uint(?:8|16)_t\s+\w+_map\[\]\s*=\s*\{([^}]+)\}`

and the same shape with `\w+` in place of `\w+_map`. They are embedded
as a hand-rolled matcher; each `\s+`/`\s*`/`\w+`/`[^}]+` is greedy, and
since every greedy run is followed by a token that cannot start with a
character of the run's class, maximal munch is the unique candidate, so
`takeWhile`/`dropWhile` is a faithful rendering of the backtracking
semantics. -/

/-- Literal matcher: consumes `pat` off the front of the input, or fails. -/
def lit : List Char → List Char → Option (List Char)
  | [], s => some s
  | _ :: _, [] => none
  | p :: ps, c :: cs => if c = p then lit ps cs else none

/-- Regex `\s+`: at least one whitespace character, consumed greedily. -/
def wsPlus : List Char → Option (List Char)
  | [] => none
  | c :: cs => if pyWS c then some (cs.dropWhile pyWS) else none

/-- Regex `\s*`, consumed greedily. -/
def wsStar (s : List Char) : List Char :=
  s.dropWhile pyWS

/-- Characters of the alignment-attribute keyword. -/
def alignKw : List Char := "LV_ATTRIBUTE_MEM_ALIGN".toList

/-- Characters of the required identifier suffix. -/
def mapSuffix : List Char := "_map".toList

/-- Regex `\w+\[\]` (and, when `req` is set, `\w+_map\[\]`): the maximal
word run must be nonempty, must end in `_map` with at least one extra
leading character when the suffix is required, and must be followed by
`[]`. -/
def matchIdentArr (req : Bool) (s : List Char) : Option (List Char) :=
  let run := s.takeWhile pyWord
  let rest := s.drop run.length
  if run ≠ [] ∧ (req → (mapSuffix.isSuffixOf run ∧ 5 ≤ run.length)) then
    lit ['[', ']'] rest
  else
    none

/-- Regex `\{([^}]+)\}`: an opening brace, a nonempty run of non-brace
characters (the capture group), then the first closing brace. Returns the
captured group. -/
def matchInitializer (s : List Char) : Option (List Char) := do
  let s ← lit [lbrace] s
  let body := s.takeWhile (fun c => c ≠ rbrace)
  let rest := s.drop body.length
  if body ≠ [] ∧ rest ≠ [] then some body else none

/-- Tail of the pattern from the element type onwards:
`uint(?:8|16)_t\s+<ident>\[\]\s*=\s*\{([^}]+)\}`. -/
def matchFromType (req : Bool) (s : List Char) : Option (List Char) := do
  let s ← lit "uint".toList s
  let s ← (do let s ← lit ['8'] s; lit "_t".toList s) <|>
          (do let s ← lit ['1', '6'] s; lit "_t".toList s)
  let s ← wsPlus s
  let s ← matchIdentArr req s
  let s := wsStar s
  let s ← lit ['='] s
  let s := wsStar s
  matchInitializer s

/-- Attempt to match a whole declaration pattern at the current position;
returns the capture group (the initializer body). -/
def matchDeclAt (req : Bool) (s : List Char) : Option (List Char) := do
  let s ← lit "static".toList s
  let s ← wsPlus s
  let s ← lit "const".toList s
  let s ← wsPlus s
  (do let s ← lit alignKw s
      let s ← wsPlus s
      matchFromType req s) <|> matchFromType req s

/-- Model of `re.search`: try the pattern at each position left to right
and return the first (leftmost) match's capture group. -/
def reSearch (req : Bool) : List Char → Option (List Char)
  | [] => matchDeclAt req []
  | c :: rest => matchDeclAt req (c :: rest) <|> reSearch req rest

/-- Model of `re.findall(r'0x([0-9a-fA-F]{2})', …)` followed by
`int(val, 16)`: non-overlapping left-to-right scan; on a match at the
current position the scan resumes after the consumed four characters,
otherwise it advances one character. The `Nat` argument is pure
termination fuel (each step consumes at least one character, so a fuel of
`s.length` — as `findHex` supplies — can never run out); it exists only
to keep the definition structurally recursive and hence computable by the
kernel. -/
def findHexAux : Nat → List Char → List Nat
  | _, [] => []
  | 0, _ :: _ => []
  | fuel + 1, c :: rest =>
    match c, rest with
    | '0', 'x' :: d1 :: d2 :: rest2 =>
      if isHexDigitChar d1 && isHexDigitChar d2 then
        (16 * hexDigitVal d1 + hexDigitVal d2) :: findHexAux fuel rest2
      else
        findHexAux fuel rest
    | _, _ => findHexAux fuel rest

/-- The hex-literal scan of `parse_c_array`. -/
def findHex (s : List Char) : List Nat := findHexAux s.length s

/-- `parse_c_array`: search with the `_map`-suffixed pattern, then the
any-identifier pattern; on no match raise `ValueError` naming the file;
then collect the `0xNN` tokens of the capture group, raising a distinct
`ValueError` (still naming the file) when none are found. -/
def parse_c_array (c_file_path : String) (content : String) : Except String (List Nat) :=
  match reSearch true content.data <|> reSearch false content.data with
  | none => .error ("Could not find pixel data array in " ++ c_file_path)
  | some body =>
    match findHex body with
    | [] => .error ("Could not parse hex values from array in " ++ c_file_path)
    | hs => .ok hs

/-- One input file of a decoder batch: its path, whether it exists on
disk, and (when it exists) the text `parse_c_array` will read. -/
structure BatchFile where
  path : String
  present : Bool
  content : String

/-- `convert_c_to_bin`: `False` for a missing file; otherwise the
`try/except` wrapper turns any `parse_c_array` failure into `False`
instead of propagating it, and a successful parse into `True`. -/
def convert_c_to_bin (f : BatchFile) : Bool :=
  if f.present then
    match parse_c_array f.path f.content with
    | .ok _ => true
    | .error _ => false
  else false

/-- The `success_count` tally accumulated by `main`'s loop over all
discovered files. -/
def success_count (files : List BatchFile) : Nat :=
  files.countP convert_c_to_bin

/-- Exit status computed by `main`: `1` when no files were discovered,
otherwise `0` iff `success_count == len(c_files)`. -/
def mainExit (files : List BatchFile) : Nat :=
  if files.isEmpty then 1
  else if success_count files = files.length then 0 else 1

/-! ## Concrete inputs and generic input shapes used by the theorems -/

/-- A 1×1 all-black image. -/
def img1 : Img := ⟨1, 1, fun _ _ => (0, 0, 0)⟩

/-- The 2×1 image with a red pixel followed by a green pixel. -/
def img2x1 : Img := ⟨2, 1, fun x _ => if x = 0 then (255, 0, 0) else (0, 255, 0)⟩

/-- Every character of the list is `\s` whitespace. -/
abbrev allWS (l : List Char) : Prop := ∀ c ∈ l, pyWS c = true

/-- The head of the list, if any, is not `\s` whitespace. -/
def headNonWS : List Char → Prop
  | [] => True
  | c :: _ => pyWS c = false

/-- A qualifying array declaration, exploded into its degrees of freedom:
the four mandatory whitespace runs, the optional alignment keyword (with
its whitespace), the 8-bit/16-bit element-type choice, the identifier,
the two optional whitespace runs around `=`, and the initializer body. -/
structure DeclShape where
  ws1 : List Char
  ws2 : List Char
  useAlign : Bool
  ws3 : List Char
  use16 : Bool
  ws4 : List Char
  name : List Char
  ws5 : List Char
  ws6 : List Char
  body : List Char

/-- The C text of a `DeclShape`. -/
def renderDecl (d : DeclShape) : List Char :=
  "static".toList ++ d.ws1 ++ "const".toList ++ d.ws2 ++
    (if d.useAlign then alignKw ++ d.ws3 else []) ++
    "uint".toList ++ (if d.use16 then ['1', '6'] else ['8']) ++ "_t".toList ++ d.ws4 ++
    d.name ++ ['[', ']'] ++ d.ws5 ++ ['='] ++ d.ws6 ++ [lbrace] ++ d.body ++ [rbrace]

/-- Well-formedness of a `DeclShape`: mandatory whitespace runs nonempty
and whitespace-only, optional runs whitespace-only, identifier a word run
ending in `_map` (with at least one extra character), body nonempty and
free of closing braces. -/
abbrev DeclShape.WF (d : DeclShape) : Prop :=
  d.ws1 ≠ [] ∧ allWS d.ws1 ∧
  d.ws2 ≠ [] ∧ allWS d.ws2 ∧
  (d.useAlign = true → (d.ws3 ≠ [] ∧ allWS d.ws3)) ∧
  d.ws4 ≠ [] ∧ allWS d.ws4 ∧
  d.name ≠ [] ∧ (∀ c ∈ d.name, pyWord c = true) ∧
  mapSuffix.isSuffixOf d.name = true ∧ 5 ≤ d.name.length ∧
  allWS d.ws5 ∧ allWS d.ws6 ∧
  d.body ≠ [] ∧ (∀ c ∈ d.body, c ≠ rbrace)

/-- A sample well-formed declaration shape exercising the alignment
keyword, the 16-bit element type, and mixed whitespace. -/
def dEx : DeclShape :=
  ⟨[' '], ['\n', ' '], true, ['\t'], true, [' ', ' '],
    "frame1_map".toList, [], [' '], " 0x0a, 0x1b ".toList⟩

/-- Initializer-style text assembled from arbitrary non-hex junk pieces
and `0xNN` tokens: junk, token, junk, token, …, then a trailing tail. -/
def renderHexList : List (List Char × Nat) → List Char → List Char
  | [], tail => tail
  | (junk, b) :: rest, tail => junk ++ hexTokChars b ++ renderHexList rest tail


/-! ## Helper lemmas: the hex-literal scan -/

/-- Fuel irrelevance for `findHexAux`: any fuel at least the input length
computes `findHex`. -/
theorem findHexAux_fuel : ∀ (f : Nat) (s : List Char), s.length ≤ f →
    findHexAux f s = findHexAux s.length s := by
  intro f
  induction f using Nat.strong_induction_on with
  | _ f ih =>
    intro s hs
    cases s with
    | nil => cases f <;> rfl
    | cons c rest =>
      cases f with
      | zero => simp at hs
      | succ f' =>
        simp only [List.length_cons] at hs ⊢
        simp only [findHexAux]
        split
        · rename_i d1 d2 rest2
          simp only [List.length_cons] at hs ⊢
          split
          · congr 1
            rw [ih f' (by omega) rest2 (by omega),
              ih (rest2.length + 1 + 1 + 1) (by omega) rest2 (by omega)]
          · rw [ih f' (by omega) ('x' :: d1 :: d2 :: rest2) (by simp; omega),
              ih (rest2.length + 1 + 1 + 1) (by omega) ('x' :: d1 :: d2 :: rest2) (by simp)]
        · rw [ih f' (by omega) rest (by omega)]

/-- The scan of the empty text yields nothing. -/
theorem findHex_nil : findHex [] = [] := rfl

/-- A `0xNN` occurrence yields exactly one byte and the scan resumes after
its four characters. -/
theorem findHex_hex (d1 d2 : Char) (r : List Char)
    (h1 : isHexDigitChar d1 = true) (h2 : isHexDigitChar d2 = true) :
    findHex ('0' :: 'x' :: d1 :: d2 :: r) =
      (16 * hexDigitVal d1 + hexDigitVal d2) :: findHex r := by
  show findHexAux (r.length + 4) ('0' :: 'x' :: d1 :: d2 :: r) = _
  simp only [findHexAux, h1, h2, Bool.and_self, if_true]
  rw [findHexAux_fuel (r.length + 3) r (by omega)]
  rfl

/-- A character other than `0` cannot start a `0xNN` occurrence; the scan
skips it. -/
theorem findHex_cons_ne (c : Char) (r : List Char) (hc : c ≠ '0') :
    findHex (c :: r) = findHex r := by
  show findHexAux (r.length + 1) (c :: r) = _
  simp only [findHexAux]
  split
  · rename_i heq _
    exact absurd rfl hc
  · rfl

/-- Text containing no `0` at all contributes nothing to the scan. -/
theorem findHex_append_noZero (junk s : List Char) (h : ∀ c ∈ junk, c ≠ '0') :
    findHex (junk ++ s) = findHex s := by
  induction junk with
  | nil => rfl
  | cons c cs ihc =>
    rw [List.cons_append, findHex_cons_ne c _ (h c (by simp)),
      ihc (fun c hc => h c (by simp [hc]))]

/-- The hex digit emitted for `n < 16` is a hex digit and evaluates back
to `n`. -/
theorem toHexDigit_spec (n : Nat) (h : n < 16) :
    isHexDigitChar (toHexDigit n) = true ∧ hexDigitVal (toHexDigit n) = n := by
  interval_cases n <;> exact ⟨by decide, by decide⟩

/-- Scanning a rendered `0xNN` token recovers exactly the byte `n`. -/
theorem findHex_hexTokChars (n : Nat) (hn : n < 256) (s : List Char) :
    findHex (hexTokChars n ++ s) = n :: findHex s := by
  have h1 := toHexDigit_spec (n / 16 % 16) (by omega)
  have h2 := toHexDigit_spec (n % 16) (by omega)
  show findHex ('0' :: 'x' :: toHexDigit (n / 16 % 16) :: toHexDigit (n % 16) :: s) = _
  rw [findHex_hex _ _ _ h1.1 h2.1, h1.2, h2.2]
  congr 1
  omega

/-- Scanning junk-interleaved `0xNN` tokens returns exactly the byte list,
in textual order, whatever the junk in between (as long as it cannot open
a hex literal, i.e. contains no `0`). -/
theorem findHex_renderHexList :
    ∀ (items : List (List Char × Nat)) (tail : List Char),
      (∀ p ∈ items, (∀ c ∈ p.1, c ≠ '0') ∧ p.2 < 256) →
      (∀ c ∈ tail, c ≠ '0') →
      findHex (renderHexList items tail) = items.map Prod.snd := by
  intro items
  induction items with
  | nil =>
    intro tail _ htail
    have h := findHex_append_noZero tail [] htail
    simp only [List.append_nil] at h
    simp [renderHexList, h, findHex_nil]
  | cons p rest ihp =>
    intro tail hitems htail
    obtain ⟨junk, b⟩ := p
    have hp := hitems (junk, b) (by simp)
    simp only [renderHexList, List.append_assoc]
    rw [findHex_append_noZero junk _ hp.1, findHex_hexTokChars b hp.2,
      ihp tail (fun q hq => hitems q (by simp [hq])) htail]
    rfl

/-! ## Helper lemmas: bit arithmetic -/

/-- Masking with `2 ^ n - 1` is reduction modulo `2 ^ n`. -/
theorem and_two_pow_sub_one (x n : Nat) : x &&& (2 ^ n - 1) = x % 2 ^ n := by
  apply Nat.eq_of_testBit_eq
  intro i
  rw [Nat.testBit_land, Nat.testBit_two_pow_sub_one, Nat.testBit_mod_two_pow]
  exact Bool.and_comm _ _

/-- Masking with `0x1F` is reduction modulo 32. -/
theorem and_31 (x : Nat) : x &&& 31 = x % 32 := by
  have h := and_two_pow_sub_one x 5
  norm_num at h
  exact h

/-- Masking with `0x3F` is reduction modulo 64. -/
theorem and_63 (x : Nat) : x &&& 63 = x % 64 := by
  have h := and_two_pow_sub_one x 6
  norm_num at h
  exact h

/-- Masking with `0xFF` is reduction modulo 256. -/
theorem and_255 (x : Nat) : x &&& 255 = x % 256 := by
  have h := and_two_pow_sub_one x 8
  norm_num at h
  exact h

/-- A left shift followed by the same right shift is the identity. -/
theorem shiftLeft_shiftRight_cancel (x k : Nat) : (x <<< k) >>> k = x := by
  rw [Nat.shiftLeft_eq, Nat.shiftRight_eq_div_pow]
  exact Nat.mul_div_cancel x (Nat.pos_pow_of_pos k (by norm_num))

/-- Bits of the constant 31. -/
theorem testBit_31 (j : Nat) : Nat.testBit 31 j = decide (j < 5) := by
  have h := Nat.testBit_two_pow_sub_one 5 j
  norm_num at h
  exact h

/-- Bits of the constant 63. -/
theorem testBit_63 (j : Nat) : Nat.testBit 63 j = decide (j < 6) := by
  have h := Nat.testBit_two_pow_sub_one 6 j
  norm_num at h
  exact h

/-- Recombining the three RGB565 fields of a 16-bit value by shift-or
reproduces the value. -/
theorem rgb565_fields_or (v : Nat) (hv : v < 65536) :
    ((v >>> 11) &&& 31) <<< 11 ||| ((v >>> 5) &&& 63) <<< 5 ||| (v &&& 31) = v := by
  apply Nat.eq_of_testBit_eq
  intro i
  rcases lt_or_ge i 16 with h | h
  · simp only [Nat.testBit_lor, Nat.testBit_shiftLeft, Nat.testBit_land, Nat.testBit_shiftRight,
      testBit_31, testBit_63]
    interval_cases i <;> simp
  · have hp : v < 2 ^ i := by
      calc v < 2 ^ 16 := hv
        _ ≤ 2 ^ i := Nat.pow_le_pow_right (by norm_num) h
    have h1 : v.testBit i = false := Nat.testBit_lt_two_pow hp
    have h2 : v.testBit (11 + (i - 11)) = false := by
      apply Nat.testBit_lt_two_pow
      calc v < 2 ^ 16 := hv
        _ ≤ 2 ^ (11 + (i - 11)) := Nat.pow_le_pow_right (by norm_num) (by omega)
    have h3 : v.testBit (5 + (i - 5)) = false := by
      apply Nat.testBit_lt_two_pow
      calc v < 2 ^ 16 := hv
        _ ≤ 2 ^ (5 + (i - 5)) := Nat.pow_le_pow_right (by norm_num) (by omega)
    simp [Nat.testBit_lor, Nat.testBit_shiftLeft, Nat.testBit_land, Nat.testBit_shiftRight,
      h1, h2, h3]

theorem lit_append (p s : List Char) : lit p (p ++ s) = some s := by
  induction p with
  | nil => rfl
  | cons c cs ihc => simp [lit, ihc]

theorem dropWhile_all_append (p : Char → Bool) (l s : List Char) (h : ∀ c ∈ l, p c = true) :
    (l ++ s).dropWhile p = s.dropWhile p := by
  induction l with
  | nil => rfl
  | cons c cs ihc =>
    simp only [List.cons_append, List.dropWhile_cons, h c (by simp), if_true]
    exact ihc (fun a ha => h a (by simp [ha]))

theorem dropWhile_headNonWS (s : List Char) (h : headNonWS s) : s.dropWhile pyWS = s := by
  cases s with
  | nil => rfl
  | cons c cs =>
    have h' : pyWS c = false := h
    simp [List.dropWhile_cons, h']

theorem wsPlus_append (w s : List Char) (hne : w ≠ []) (hw : allWS w) (hs : headNonWS s) :
    wsPlus (w ++ s) = some s := by
  cases w with
  | nil => exact absurd rfl hne
  | cons c cs =>
    simp only [List.cons_append, wsPlus, hw c (by simp), if_true]
    rw [dropWhile_all_append pyWS cs s (fun a ha => hw a (by simp [ha])),
      dropWhile_headNonWS s hs]

theorem wsStar_append (w s : List Char) (hw : allWS w) (hs : headNonWS s) :
    wsStar (w ++ s) = s := by
  unfold wsStar
  rw [dropWhile_all_append pyWS w s hw, dropWhile_headNonWS s hs]

theorem takeWhile_all_append (p : Char → Bool) (l : List Char) (c : Char) (s : List Char)
    (h : ∀ a ∈ l, p a = true) (hc : p c = false) :
    (l ++ c :: s).takeWhile p = l := by
  induction l with
  | nil => simp [List.takeWhile_cons, hc]
  | cons a as iha =>
    simp only [List.cons_append, List.takeWhile_cons, h a (by simp), if_true]
    rw [iha (fun b hb => h b (by simp [hb]))]

theorem matchIdentArr_append (req : Bool) (name s : List Char)
    (hne : name ≠ []) (hword : ∀ c ∈ name, pyWord c = true)
    (hsuf : req = true → (mapSuffix.isSuffixOf name = true ∧ 5 ≤ name.length)) :
    matchIdentArr req (name ++ '[' :: ']' :: s) = some s := by
  simp only [matchIdentArr]
  rw [takeWhile_all_append pyWord name '[' (']' :: s) hword (by decide)]
  rw [List.drop_left]
  rw [if_pos ⟨hne, fun hr => hsuf hr⟩]
  simp [lit]

theorem matchInitializer_append (body s : List Char) (hne : body ≠ [])
    (hnb : ∀ c ∈ body, c ≠ rbrace) :
    matchInitializer (lbrace :: (body ++ rbrace :: s)) = some body := by
  unfold matchInitializer
  rw [show lit [lbrace] (lbrace :: (body ++ rbrace :: s)) = some (body ++ rbrace :: s) from rfl]
  simp only [Option.bind_eq_bind, Option.some_bind]
  have ht : (body ++ rbrace :: s).takeWhile (fun c => c ≠ rbrace) = body := by
    apply takeWhile_all_append
    · intro a ha
      simp [hnb a ha]
    · simp
  rw [ht, List.drop_left, if_pos ⟨hne, by simp⟩]

instance headNonWS.dec : (l : List Char) → Decidable (headNonWS l)
  | [] => isTrue trivial
  | _ :: _ => inferInstanceAs (Decidable (_ = false))

theorem pyWord_not_ws (c : Char) (h : pyWord c = true) : pyWS c = false := by
  cases hws : pyWS c
  · rfl
  · exfalso
    simp only [pyWS, Bool.or_eq_true, decide_eq_true_eq] at hws
    rcases hws with ((((h1 | h1) | h1) | h1) | h1) | h1 <;> subst h1 <;> simp [pyWord] at h

theorem headNonWS_cons (c : Char) (l : List Char) (h : pyWS c = false) :
    headNonWS (c :: l) := h

theorem headNonWS_of_word (l tl : List Char) (hne : l ≠ [])
    (hw : ∀ c ∈ l, pyWord c = true) : headNonWS (l ++ tl) := by
  cases l with
  | nil => exact absurd rfl hne
  | cons c cs => exact pyWord_not_ws c (hw c (by simp))

theorem matchFromType_append (req use16 : Bool) (ws4 name ws5 ws6 body tail : List Char)
    (hw4 : ws4 ≠ []) (haw4 : allWS ws4)
    (hnne : name ≠ []) (hword : ∀ c ∈ name, pyWord c = true)
    (hsuf : req = true → (mapSuffix.isSuffixOf name = true ∧ 5 ≤ name.length))
    (hws5 : allWS ws5) (hws6 : allWS ws6)
    (hbne : body ≠ []) (hnb : ∀ c ∈ body, c ≠ rbrace) :
    matchFromType req ("uint".toList ++ ((if use16 then ['1', '6'] else ['8']) ++
      ("_t".toList ++ (ws4 ++ (name ++ '[' :: ']' ::
        (ws5 ++ '=' :: (ws6 ++ lbrace :: (body ++ rbrace :: tail)))))))) = some body := by
  unfold matchFromType
  rw [lit_append "uint".toList _]
  simp only [Option.bind_eq_bind, Option.some_bind]
  cases use16 with
  | false =>
    rw [if_neg (by decide)]
    rw [lit_append ['8'] _]
    simp only [Option.bind_eq_bind, Option.some_bind]
    rw [lit_append "_t".toList _]
    simp only [Option.some_orElse, Option.bind_eq_bind, Option.some_bind]
    rw [wsPlus_append ws4 _ hw4 haw4 (headNonWS_of_word name _ hnne hword)]
    simp only [Option.bind_eq_bind, Option.some_bind]
    rw [matchIdentArr_append req name _ hnne hword hsuf]
    simp only [Option.bind_eq_bind, Option.some_bind]
    rw [wsStar_append ws5 _ hws5 (headNonWS_cons _ _ (by decide))]
    rw [show lit ['='] ('=' :: (ws6 ++ lbrace :: (body ++ rbrace :: tail))) =
      some (ws6 ++ lbrace :: (body ++ rbrace :: tail)) from rfl]
    simp only [Option.bind_eq_bind, Option.some_bind]
    rw [wsStar_append ws6 _ hws6 (headNonWS_cons _ _ (by decide))]
    exact matchInitializer_append body tail hbne hnb
  | true =>
    rw [if_pos rfl]
    rw [show lit ['8'] (['1', '6'] ++ ("_t".toList ++ (ws4 ++ (name ++ '[' :: ']' ::
      (ws5 ++ '=' :: (ws6 ++ lbrace :: (body ++ rbrace :: tail))))))) = none from rfl]
    simp only [Option.bind_eq_bind, Option.none_bind, Option.none_orElse]
    rw [lit_append ['1', '6'] _]
    simp only [Option.bind_eq_bind, Option.some_bind]
    rw [lit_append "_t".toList _]
    simp only [Option.bind_eq_bind, Option.some_bind]
    rw [wsPlus_append ws4 _ hw4 haw4 (headNonWS_of_word name _ hnne hword)]
    simp only [Option.bind_eq_bind, Option.some_bind]
    rw [matchIdentArr_append req name _ hnne hword hsuf]
    simp only [Option.bind_eq_bind, Option.some_bind]
    rw [wsStar_append ws5 _ hws5 (headNonWS_cons _ _ (by decide))]
    rw [show lit ['='] ('=' :: (ws6 ++ lbrace :: (body ++ rbrace :: tail))) =
      some (ws6 ++ lbrace :: (body ++ rbrace :: tail)) from rfl]
    simp only [Option.bind_eq_bind, Option.some_bind]
    rw [wsStar_append ws6 _ hws6 (headNonWS_cons _ _ (by decide))]
    exact matchInitializer_append body tail hbne hnb

theorem lit_align_uint (X : List Char) : lit alignKw ("uint".toList ++ X) = none := rfl

theorem headNonWS_toList_append (s : String) (tl : List Char) (hne : s.data ≠ [])
    (h : headNonWS s.data) : headNonWS (s.toList ++ tl) := by
  cases hs : s.data with
  | nil => exact absurd hs hne
  | cons c cs =>
    rw [show s.toList = s.data from rfl, hs]
    rw [hs] at h
    exact h

theorem headNonWS_align_append (tl : List Char) : headNonWS (alignKw ++ tl) :=
  headNonWS_toList_append "LV_ATTRIBUTE_MEM_ALIGN" tl (by decide) (by decide)

theorem matchDeclAt_spine (req : Bool) (ws1 ws2 rest : List Char)
    (h1 : ws1 ≠ []) (h2 : allWS ws1) (h3 : ws2 ≠ []) (h4 : allWS ws2) (hh : headNonWS rest) :
    matchDeclAt req ("static".toList ++ (ws1 ++ ("const".toList ++ (ws2 ++ rest)))) =
      ((do
        let s ← lit alignKw rest
        let s ← wsPlus s
        matchFromType req s) <|> matchFromType req rest) := by
  unfold matchDeclAt
  rw [lit_append "static".toList _]
  simp only [Option.bind_eq_bind, Option.some_bind]
  rw [wsPlus_append ws1 _ h1 h2 (headNonWS_toList_append "const" _ (by decide) (by decide))]
  simp only [Option.bind_eq_bind, Option.some_bind]
  rw [lit_append "const".toList _]
  simp only [Option.bind_eq_bind, Option.some_bind]
  rw [wsPlus_append ws2 rest h3 h4 hh]
  simp only [Option.bind_eq_bind, Option.some_bind]

theorem matchDeclAt_renderDecl (d : DeclShape) (h : d.WF) :
    matchDeclAt true (renderDecl d) = some d.body := by
  obtain ⟨ws1, ws2, useAlign, ws3, use16, ws4, name, ws5, ws6, body⟩ := d
  obtain ⟨h1, h2, h3, h4, h5, h6, h7, h8, h9, h10, h11, h12, h13, h14, h15⟩ := h
  cases useAlign with
  | true =>
    have ha := h5 rfl
    simp only [renderDecl, if_true, List.append_assoc, List.cons_append, List.nil_append]
    rw [matchDeclAt_spine true ws1 ws2 _ h1 h2 h3 h4 (headNonWS_align_append _)]
    rw [lit_append alignKw _]
    simp only [Option.bind_eq_bind, Option.some_bind]
    rw [wsPlus_append ws3 _ ha.1 ha.2 (headNonWS_toList_append "uint" _ (by decide) (by decide))]
    simp only [Option.bind_eq_bind, Option.some_bind]
    rw [matchFromType_append true use16 ws4 name ws5 ws6 body [] h6 h7 h8 h9
      (fun _ => ⟨h10, h11⟩) h12 h13 h14 h15]
    simp only [Option.some_orElse]
  | false =>
    simp only [renderDecl, Bool.false_eq_true, if_false, if_true, List.append_assoc,
      List.cons_append, List.nil_append]
    rw [matchDeclAt_spine true ws1 ws2 _ h1 h2 h3 h4
      (headNonWS_toList_append "uint" _ (by decide) (by decide))]
    rw [lit_align_uint _]
    simp only [Option.bind_eq_bind, Option.none_bind, Option.none_orElse]
    rw [matchFromType_append true use16 ws4 name ws5 ws6 body [] h6 h7 h8 h9
      (fun _ => ⟨h10, h11⟩) h12 h13 h14 h15]

theorem reSearch_of_matchAt (req : Bool) (s b : List Char)
    (h : matchDeclAt req s = some b) : reSearch req s = some b := by
  cases s with
  | nil => simpa [reSearch] using h
  | cons c rest => simp [reSearch, h, Option.some_orElse]

theorem parse_c_array_renderDecl (d : DeclShape) (hWF : d.WF) (path : String)
    (hne : findHex d.body ≠ []) :
    parse_c_array path (String.mk (renderDecl d)) = .ok (findHex d.body) := by
  unfold parse_c_array
  rw [show (String.mk (renderDecl d)).data = renderDecl d from rfl,
    reSearch_of_matchAt true _ _ (matchDeclAt_renderDecl d hWF)]
  obtain ⟨a, as, hfh⟩ : ∃ a as, findHex d.body = a :: as := by
    cases hfh : findHex d.body with
    | nil => exact absurd hfh hne
    | cons a as => exact ⟨a, as, rfl⟩
  simp only [Option.some_orElse, hfh]

/-! ## Claim theorems -/

/-- C2: for 8-bit channels `(r, g, b)` the encoder's packed value equals
`((r >> 3) << 11) | ((g >> 2) << 5) | (b >> 3)` — right-shift truncation
to 5/6/5 bits (no rounding), packed red-most-significant. -/
theorem C2_rgb565_truncation (r g b : Nat) (hr : r < 256) (hg : g < 256) (hb : b < 256) :
    rgb565 r g b = ((r >>> 3) <<< 11) ||| ((g >>> 2) <<< 5) ||| (b >>> 3) := by
  unfold rgb565
  have hr3 : r >>> 3 < 32 := by
    rw [Nat.shiftRight_eq_div_pow, show (2 : Nat) ^ 3 = 8 from rfl]
    omega
  have hg2 : g >>> 2 < 64 := by
    rw [Nat.shiftRight_eq_div_pow, show (2 : Nat) ^ 2 = 4 from rfl]
    omega
  have hb3 : b >>> 3 < 32 := by
    rw [Nat.shiftRight_eq_div_pow, show (2 : Nat) ^ 3 = 8 from rfl]
    omega
  rw [and_31, and_63, and_31, Nat.mod_eq_of_lt hr3, Nat.mod_eq_of_lt hg2,
    Nat.mod_eq_of_lt hb3]

/-- Witness for C2 at the concrete pixel (255, 128, 7). -/
theorem C2_rgb565_truncation_witness :
    rgb565 255 128 7 = ((255 >>> 3) <<< 11) ||| ((128 >>> 2) <<< 5) ||| (7 >>> 3) :=
  C2_rgb565_truncation 255 128 7 (by decide) (by decide) (by decide)

/-- C3: each packed value is emitted low byte first (`0xABCD` gives the
tokens `0xcd` then `0xab`), and the 2×1 red-then-green image emits the
token sequence `0x00, 0xf8, 0xe0, 0x07`. -/
theorem C3_little_endian :
    (∀ v, v < 65536 → pixelTokens v = [hexTok (v % 256), hexTok (v / 256)]) ∧
    pixelTokens 0xABCD = ["0xcd", "0xab"] ∧
    pixel_data img2x1 = ["0x00", "0xf8", "0xe0", "0x07"] := by
  refine ⟨?_, by rfl, by rfl⟩
  intro v hv
  simp only [pixelTokens, leBytes, List.map_cons, List.map_nil]
  rw [and_255, and_255, Nat.shiftRight_eq_div_pow, show (2 : Nat) ^ 8 = 256 from rfl,
    Nat.mod_eq_of_lt (show v / 256 < 256 by omega)]

/-- Witness for C3 at the packed value `0xABCD`. -/
theorem C3_little_endian_witness :
    pixelTokens 0xABCD = [hexTok (0xABCD % 256), hexTok (0xABCD / 256)] :=
  C3_little_endian.1 0xABCD (by decide)

/-- C9: extracting the 5/6/5 fields of any 16-bit packed value, widening
them to 8 bits by left shift, and re-encoding with the encoder's packing
reproduces the value. -/
theorem C9_rgb565_stable (v : Nat) (hv : v < 65536) :
    rgb565 (((v >>> 11) &&& 0x1F) <<< 3) (((v >>> 5) &&& 0x3F) <<< 2)
      ((v &&& 0x1F) <<< 3) = v := by
  unfold rgb565
  rw [shiftLeft_shiftRight_cancel, shiftLeft_shiftRight_cancel, shiftLeft_shiftRight_cancel]
  rw [Nat.and_assoc, Nat.and_assoc, Nat.and_assoc,
    show (31 : Nat) &&& 31 = 31 from rfl, show (63 : Nat) &&& 63 = 63 from rfl]
  exact rgb565_fields_or v hv

/-- Witness for C9 at the packed value `0xABCD`. -/
theorem C9_rgb565_stable_witness :
    rgb565 (((0xABCD >>> 11) &&& 0x1F) <<< 3) (((0xABCD >>> 5) &&& 0x3F) <<< 2)
      ((0xABCD &&& 0x1F) <<< 3) = 0xABCD :=
  C9_rgb565_stable 0xABCD (by decide)

/-- Each pixel contributes exactly two tokens. -/
theorem pixelTokens_length (p : Nat × Nat × Nat) :
    (match p with | (r, g, b) => pixelTokens (rgb565 r g b)).length = 2 := by
  rcases p with ⟨r, g, b⟩
  rfl

/-- C4: the encoder emits `2 * W * H` hex tokens, and the descriptor's
`data_size` field carries that same count. -/
theorem C4_token_count (img : Img) :
    (pixel_data img).length = 2 * (img.width * img.height) ∧
    (imgDsc img).data_size = (pixel_data img).length := by
  refine ⟨?_, rfl⟩
  unfold pixel_data
  rw [List.length_flatMap]
  have hinner : ∀ y ∈ List.range img.height,
      (List.length ∘ fun y => (List.range img.width).flatMap fun x =>
        match img.getpixel x y with
        | (r, g, b) => pixelTokens (rgb565 r g b)) y = 2 * img.width := by
    intro y _
    simp only [Function.comp_apply]
    rw [List.length_flatMap]
    have hx : ∀ x ∈ List.range img.width,
        (List.length ∘ fun x =>
          match img.getpixel x y with
          | (r, g, b) => pixelTokens (rgb565 r g b)) x = 2 := by
      intro x _
      exact pixelTokens_length (img.getpixel x y)
    rw [List.map_congr_left hx]
    simp [List.sum_replicate, Nat.mul_comm]
  rw [List.map_congr_left hinner]
  simp [List.sum_replicate, Nat.smul_one_eq_cast]
  ring

/-- Strided index list: Python `range(0, n, 16)` as a mapped `List.range`. -/
theorem range'_sixteen : ∀ (k a : Nat),
    List.range' a k 16 = (List.range k).map (fun j => a + 16 * j) := by
  intro k
  induction k with
  | zero => intro a; rfl
  | succ n ihn =>
    intro a
    rw [List.range'_succ, List.range_succ_eq_map, List.map_cons, ihn (a + 16),
      List.map_map]
    congr 1
    apply List.map_congr_left
    intro j _
    simp only [Function.comp_apply]
    omega

/-- C8: the data section is exactly the lines of 16 comma-separated
tokens (the last line holding between 1 and 16 remainder tokens), a
trailing comma on every line except the last, the last line never getting
one — in particular not when the count is an exact multiple of 16. -/
theorem C8_line_grouping (tokens : List String) (hne : tokens ≠ []) :
    dataText tokens =
      String.join ((List.range ((tokens.length + 15) / 16)).map fun j =>
        "  " ++ String.intercalate ", " (rowAt tokens (16 * j)) ++
          (if j + 1 < (tokens.length + 15) / 16 then ",\n" else "\n")) ∧
    (∀ j, j + 1 < (tokens.length + 15) / 16 → (rowAt tokens (16 * j)).length = 16) ∧
    (rowAt tokens (16 * ((tokens.length + 15) / 16 - 1))).length =
      tokens.length - 16 * ((tokens.length + 15) / 16 - 1) ∧
    1 ≤ (rowAt tokens (16 * ((tokens.length + 15) / 16 - 1))).length ∧
    (rowAt tokens (16 * ((tokens.length + 15) / 16 - 1))).length ≤ 16 ∧
    ¬ (16 * ((tokens.length + 15) / 16 - 1) + 16 < tokens.length) := by
  have hpos : 0 < tokens.length := List.length_pos.mpr hne
  refine ⟨?_, ?_, ?_, ?_, ?_, by omega⟩
  · unfold dataText
    rw [range'_sixteen, List.map_map]
    congr 1
    apply List.map_congr_left
    intro j hj
    simp only [List.mem_range] at hj
    simp only [Function.comp_apply, lineAt, Nat.zero_add]
    by_cases hc : j + 1 < (tokens.length + 15) / 16
    · rw [if_pos (show 16 * j + 16 < tokens.length by omega), if_pos hc]
    · rw [if_neg (show ¬(16 * j + 16 < tokens.length) by omega), if_neg hc]
  · intro j hj
    simp only [rowAt, List.length_take, List.length_drop]
    omega
  · simp only [rowAt, List.length_take, List.length_drop]
    omega
  · simp only [rowAt, List.length_take, List.length_drop]
    omega
  · simp only [rowAt, List.length_take, List.length_drop]
    omega

/-- Witness for C8 on a 32-token list (an exact multiple of 16): both
lines hold 16 tokens and the last line gets no comma. -/
theorem C8_line_grouping_witness :
    (rowAt (List.replicate 32 "0x00") (16 * 0)).length = 16 ∧
    (rowAt (List.replicate 32 "0x00")
        (16 * (((List.replicate 32 "0x00").length + 15) / 16 - 1))).length =
      (List.replicate 32 "0x00").length -
        16 * (((List.replicate 32 "0x00").length + 15) / 16 - 1) ∧
    ¬ (16 * (((List.replicate 32 "0x00").length + 15) / 16 - 1) + 16 <
        (List.replicate 32 "0x00").length) := by
  have h := C8_line_grouping (List.replicate 32 "0x00") (by decide)
  exact ⟨h.2.1 0 (by decide), h.2.2.1, h.2.2.2.2.2⟩

set_option maxRecDepth 20000 in
/-- C1 (counter-evidence): on the encoder's own output the decoder raises
the extraction error — the encoder writes
`const LV_ATTRIBUTE_MEM_ALIGN uint8_t …_map[] = …` with no `static`
keyword, while both decoder patterns demand a leading `static` — so no
declaration in the text qualifies, and the packed stream `[0x00, 0x00]`
of the 1×1 black image is never recovered. -/
theorem C1_encoder_output_rejected :
    parse_c_array "anim_frame_0.c" (convert_png_to_c img1 "anim_frame_0") =
      .error "Could not find pixel data array in anim_frame_0.c" ∧
    packedStream img1 = [0, 0] := by
  exact ⟨by rfl, by rfl⟩

/-- C5: the decoder accepts any well-formed declaration — with or without
the alignment keyword, with `uint8_t` or `uint16_t`, under arbitrary
whitespace — via the `_map` pattern; a declaration without the `_map`
suffix is missed by the first pattern and caught by the fallback; the
`_map` pattern has priority over textual order; and when nothing matches
the error names the source file. -/
theorem C5_matching_policy :
    (∀ (d : DeclShape) (path : String), d.WF → findHex d.body ≠ [] →
      parse_c_array path (String.mk (renderDecl d)) = .ok (findHex d.body)) ∧
    reSearch true "static const uint8_t pixels[] = \x7b0x01\x7d;".data = none ∧
    parse_c_array "g.c" "static const uint8_t pixels[] = \x7b0x01\x7d;" = .ok [1] ∧
    parse_c_array "h.c"
      "static const uint8_t a[] = \x7b0x01\x7d; static const uint8_t b_map[] = \x7b0x02\x7d;" =
        .ok [2] ∧
    (∀ path : String, parse_c_array path "int x;" =
      .error ("Could not find pixel data array in " ++ path)) :=
  ⟨fun d path hWF hne => parse_c_array_renderDecl d hWF path hne, rfl, rfl, rfl, fun _ => rfl⟩

/-- Witness for C5: the sample shape (alignment keyword, `uint16_t`,
mixed whitespace, empty `ws5`) parses to its two bytes. -/
theorem C5_matching_policy_witness :
    parse_c_array "w.c" (String.mk (renderDecl dEx)) = .ok [10, 27] := by
  have h := C5_matching_policy.1 dEx "w.c" (by decide) (by decide)
  rw [h]
  rfl

/-- C6: every `0xNN` occurrence in the matched initializer becomes exactly
one byte, in textual order, whatever non-hex text surrounds the tokens;
the spec's 3-byte example extracts `01 02 ff`; and an initializer with no
hex literal yields the parse error naming the file. -/
theorem C6_hex_extraction :
    (∀ (items : List (List Char × Nat)) (tail : List Char),
      (∀ p ∈ items, (∀ c ∈ p.1, c ≠ '0') ∧ p.2 < 256) →
      (∀ c ∈ tail, c ≠ '0') →
      findHex (renderHexList items tail) = items.map Prod.snd) ∧
    parse_c_array "frame1.c"
      "static const uint8_t frame1_map[] = \x7b 0x01, 0x02, 0xff \x7d;" = .ok [1, 2, 255] ∧
    parse_c_array "g.c" "static const uint8_t x_map[] = \x7b1,2,3\x7d;" =
      .error "Could not parse hex values from array in g.c" :=
  ⟨findHex_renderHexList, rfl, rfl⟩

/-- Witness for C6: two tokens with junk around them extract in order. -/
theorem C6_hex_extraction_witness :
    findHex (renderHexList [([' '], 171), ([',', ' '], 18)] [';']) = [171, 18] := by
  have h := C6_hex_extraction.1 [([' '], 171), ([',', ' '], 18)] [';']
    (by decide) (by decide)
  rw [h]
  rfl

/-- C10: a hex literal with more than two digits contributes exactly one
byte built from its first two digits (`0x1234` gives `0x12`, never two
bytes, even under a `uint16_t` declaration), and a literal with fewer
than two digits contributes nothing. -/
theorem C10_hex_literal_width :
    (∀ (d1 d2 : Char) (rest : List Char),
      isHexDigitChar d1 = true → isHexDigitChar d2 = true →
      findHex ('0' :: 'x' :: d1 :: d2 :: rest) =
        (16 * hexDigitVal d1 + hexDigitVal d2) :: findHex rest) ∧
    findHex "0x1234,".data = [0x12] ∧
    parse_c_array "h.c" "static const uint16_t img_map[] = \x7b0x1234, 0xabcd\x7d;" =
      .ok [0x12, 0xab] ∧
    findHex "0x1,".data = [] :=
  ⟨findHex_hex, rfl, rfl, rfl⟩

/-- Witness for C10 at the digits `a`, `b` followed by a bang. -/
theorem C10_hex_literal_width_witness :
    findHex ('0' :: 'x' :: 'a' :: 'b' :: ['!']) =
      (16 * hexDigitVal 'a' + hexDigitVal 'b') :: findHex ['!'] :=
  C10_hex_literal_width.1 'a' 'b' ['!'] (by decide) (by decide)

/-- C7: the batch driver's exit status is 0 exactly when files were found
and every one of them converted (per-file conversion being a total
function — failures are absorbed, not propagated); it is 1 on an empty
batch; each file contributes to the tally independently of the files
around it; and the status is always 0 or 1. -/
theorem C7_batch_exit_semantics (files : List BatchFile) :
    (mainExit files = 0 ↔ files ≠ [] ∧ ∀ f ∈ files, convert_c_to_bin f = true) ∧
    mainExit [] = 1 ∧
    (∀ (pre : List BatchFile) (f : BatchFile) (post : List BatchFile),
      success_count (pre ++ f :: post) =
        success_count pre + (if convert_c_to_bin f then 1 else 0) + success_count post) ∧
    (mainExit files = 0 ∨ mainExit files = 1) := by
  refine ⟨?_, rfl, ?_, ?_⟩
  · unfold mainExit success_count
    constructor
    · intro h
      by_cases hemp : files.isEmpty
      · rw [if_pos hemp] at h
        exact absurd h (by decide)
      · rw [if_neg hemp] at h
        refine ⟨fun hn => hemp (by simp [hn]), ?_⟩
        have hc : files.countP convert_c_to_bin = files.length := by
          by_contra hnc
          rw [if_neg hnc] at h
          exact absurd h (by decide)
        exact fun f hf => List.countP_eq_length.mp hc f hf
    · rintro ⟨hne, hall⟩
      rw [if_neg (by simpa [List.isEmpty_iff] using hne),
        if_pos (List.countP_eq_length.mpr hall)]
  · intro pre f post
    unfold success_count
    cases hc : convert_c_to_bin f with
    | false =>
      simp [List.countP_append, List.countP_cons, hc]
    | true =>
      simp [List.countP_append, List.countP_cons, hc]
      omega
  · unfold mainExit
    by_cases h1 : files.isEmpty
    · simp [h1]
    · by_cases h2 : success_count files = files.length
      · simp [h1, h2]
      · simp [h1, h2]

/-- Witness for C7: a two-file batch where the second file has no
qualifying array exits with status 1, and the empty batch exits 1. -/
theorem C7_batch_exit_semantics_witness :
    mainExit [⟨"a.c", true, "static const uint8_t a_map[] = \x7b0x01\x7d;"⟩,
      ⟨"b.c", true, "junk"⟩] = 1 ∧ mainExit [] = 1 := by
  have h := C7_batch_exit_semantics
    [⟨"a.c", true, "static const uint8_t a_map[] = \x7b0x01\x7d;"⟩, ⟨"b.c", true, "junk"⟩]
  refine ⟨?_, h.2.1⟩
  rcases h.2.2.2 with h0 | h1
  · exfalso
    have hb := (h.1.mp h0).2 ⟨"b.c", true, "junk"⟩ (by simp)
    exact absurd hb (by decide)
  · exact h1
